import Mathlib

/-!
Verification of the double-pendulum physics core of `simulation.py`.

The Python source works on IEEE-754 doubles; we embed it over the real
numbers, the idealised semantics of the arithmetic it performs.  The two
external effects are made explicit:

* `scipy.integrate.odeint` is an external adaptive ODE solver; `step`
  therefore takes the solver as an explicit function argument mapping the
  derivative function, the initial state and the requested time to the
  solved state at that time (exactly the contract the caller relies on).
* `np.random.uniform(-strength, strength)` draws are passed in as explicit
  real arguments, constrained to the interval in the theorems.
-/

open Real

/-- The 4-vector `[th1, w1, th2, w2]` held in `self.state`
(`np.array([...], dtype=float)` in the source). -/
structure PendulumState where
  th1 : ℝ
  w1 : ℝ
  th2 : ℝ
  w2 : ℝ

/-- The engine object: the four constructor parameters, the gravitational
constant fixed in `__init__`, and the mutable state vector. -/
structure DoublePendulum where
  L1 : ℝ
  L2 : ℝ
  M1 : ℝ
  M2 : ℝ
  g : ℝ
  state : PendulumState

namespace DoublePendulum

/-- `DoublePendulum.__init__`: stores the four parameters (defaults all
`1.0`), sets `g = 9.81` and the fixed initial state
`[pi/1.1, 0, pi/1.1, 0]`. -/
noncomputable def init (L1 : ℝ := 1.0) (L2 : ℝ := 1.0)
    (M1 : ℝ := 1.0) (M2 : ℝ := 1.0) : DoublePendulum :=
  { L1 := L1, L2 := L2, M1 := M1, M2 := M2, g := 9.81,
    state := ⟨Real.pi / 1.1, 0, Real.pi / 1.1, 0⟩ }

/-- `den1` as computed in `derivs`:
`(M1+M2)*L1 - M2*L1*cos(delta)*cos(delta)`. -/
noncomputable def den1 (p : DoublePendulum) (delta : ℝ) : ℝ :=
  (p.M1 + p.M2) * p.L1 - p.M2 * p.L1 * Real.cos delta * Real.cos delta

/-- `den2` as computed in `derivs`: `(L2/L1) * den1`. -/
noncomputable def den2 (p : DoublePendulum) (delta : ℝ) : ℝ :=
  (p.L2 / p.L1) * p.den1 delta

/-- `DoublePendulum.derivs(state, t)`: the time-derivative of the state
vector (`t` is accepted and unused, as in the source). -/
noncomputable def derivs (p : DoublePendulum) (s : PendulumState) (_t : ℝ) :
    PendulumState :=
  let delta := s.th2 - s.th1
  { th1 := s.w1
    w1 := (p.M2 * p.L1 * s.w1 * s.w1 * Real.sin delta * Real.cos delta
            + p.M2 * p.g * Real.sin s.th2 * Real.cos delta
            + p.M2 * p.L2 * s.w2 * s.w2 * Real.sin delta
            - (p.M1 + p.M2) * p.g * Real.sin s.th1) / p.den1 delta
    th2 := s.w2
    w2 := (- p.M2 * p.L2 * s.w2 * s.w2 * Real.sin delta * Real.cos delta
            + (p.M1 + p.M2) * p.g * Real.sin s.th1 * Real.cos delta
            - (p.M1 + p.M2) * p.L1 * s.w1 * s.w1 * Real.sin delta
            - (p.M1 + p.M2) * p.g * Real.sin s.th2) / p.den2 delta }

/-- `DoublePendulum.get_pos()`: pure conversion of the angular state to the
Cartesian coordinates `(x1, y1, x2, y2)` of the two joints. -/
noncomputable def get_pos (p : DoublePendulum) : ℝ × ℝ × ℝ × ℝ :=
  let x1 := p.L1 * Real.sin p.state.th1
  let y1 := - p.L1 * Real.cos p.state.th1
  (x1, y1, x1 + p.L2 * Real.sin p.state.th2, y1 - p.L2 * Real.cos p.state.th2)

/-- The type of the external ODE solver (`scipy.integrate.odeint` as used
by `step`): given the derivative function, the current state as initial
condition and the requested time `dt`, it returns the solved state at
`t = dt`. -/
def Solver : Type :=
  (PendulumState → ℝ → PendulumState) → PendulumState → ℝ → PendulumState

/-- `DoublePendulum.step(dt)`: asks the solver for the state at `t = dt`,
replaces the internal state with it, and returns `get_pos()` of the
updated engine. -/
noncomputable def step (solver : Solver) (p : DoublePendulum) (dt : ℝ) :
    DoublePendulum × (ℝ × ℝ × ℝ × ℝ) :=
  let next_state := solver p.derivs p.state dt
  let p' := { p with state := next_state }
  (p', p'.get_pos)

/-- `step` iterated `n` times with a fixed `dt` (the render loop calls
`sim.step(dt)` once per frame). -/
noncomputable def stepN (solver : Solver) (p : DoublePendulum) (dt : ℝ) :
    ℕ → DoublePendulum
  | 0 => p
  | n + 1 => ((stepN solver p dt n).step solver dt).1

/-- `DoublePendulum.perturb(strength)`: adds the two uniform draws
(`r1 = np.random.uniform(-strength, strength)` and likewise `r2`) to
`state[1]` and `state[3]`. -/
def perturb (p : DoublePendulum) (r1 r2 : ℝ) : DoublePendulum :=
  { p with state := { p.state with w1 := p.state.w1 + r1,
                                   w2 := p.state.w2 + r2 } }

end DoublePendulum

/-- `max_history = 200` from the render loop. -/
def max_history : ℕ := 200

/-- One trail update from `update(frame)`: `history.append(pt)` followed by
`if len(history) > max_history: history.pop(0)` (the source keeps the x and
y coordinates in two parallel lists; we pair them). -/
def pushTrail {α : Type} (h : List α) (pt : α) : List α :=
  let h' := h ++ [pt]
  if h'.length > max_history then h'.tail else h'

/-- The trail history obtained by appending a whole sequence of points to
an initially empty history, one `update` at a time. -/
def trailOf {α : Type} (ps : List α) : List α := ps.foldl pushTrail []

/-- The global simulation instance built on module load:
`sim = DoublePendulum(L1=1.0, L2=1.0, M1=1.0, M2=1.0)`. -/
noncomputable def sim : DoublePendulum := DoublePendulum.init 1.0 1.0 1.0 1.0

/-- A trivial instance of the solver interface (used only to instantiate
universally quantified statements at a concrete solver). -/
def idSolver : DoublePendulum.Solver := fun _f s _t => s

namespace DoublePendulum

theorem stepN_L1 (solver : Solver) (p : DoublePendulum) (dt : ℝ) (n : ℕ) :
    (stepN solver p dt n).L1 = p.L1 := by
  induction n with
  | zero => rfl
  | succ n ih => simpa [stepN, step] using ih

theorem stepN_L2 (solver : Solver) (p : DoublePendulum) (dt : ℝ) (n : ℕ) :
    (stepN solver p dt n).L2 = p.L2 := by
  induction n with
  | zero => rfl
  | succ n ih => simpa [stepN, step] using ih

/-- The end effector returned by `get_pos` always lies in the closed disk
of radius `L1 + L2` about the pivot. -/
theorem get_pos_reach_bound (p : DoublePendulum) (h1 : 0 ≤ p.L1)
    (h2 : 0 ≤ p.L2) :
    p.get_pos.2.2.1 ^ 2 + p.get_pos.2.2.2 ^ 2 ≤ (p.L1 + p.L2) ^ 2 := by
  simp only [get_pos]
  set a := p.state.th1
  set b := p.state.th2
  have key : Real.cos a * Real.cos b + Real.sin a * Real.sin b ≤ 1 :=
    Real.cos_sub a b ▸ Real.cos_le_one (a - b)
  have e1 : p.L1 ^ 2 * (Real.sin a ^ 2 + Real.cos a ^ 2) = p.L1 ^ 2 := by
    rw [Real.sin_sq_add_cos_sq]; ring
  have e2 : p.L2 ^ 2 * (Real.sin b ^ 2 + Real.cos b ^ 2) = p.L2 ^ 2 := by
    rw [Real.sin_sq_add_cos_sq]; ring
  have hprod : 0 ≤ p.L1 * p.L2 *
      (1 - (Real.cos a * Real.cos b + Real.sin a * Real.sin b)) :=
    mul_nonneg (mul_nonneg h1 h2) (by linarith)
  nlinarith [e1, e2, hprod]

end DoublePendulum

theorem trailOf_eq_drop {α : Type} (ps : List α) :
    trailOf ps = ps.drop (ps.length - max_history) := by
  have hm : max_history = 200 := rfl
  induction ps using List.reverseRecOn with
  | nil => simp [trailOf]
  | append_singleton xs x ih =>
    have hfold : trailOf (xs ++ [x]) = pushTrail (trailOf xs) x := by
      simp [trailOf, List.foldl_append]
    rw [hfold, ih]
    simp only [pushTrail, List.length_append, List.length_singleton]
    by_cases hlen : xs.length < max_history
    · have h0 : xs.length - max_history = 0 := by omega
      rw [h0, List.drop_zero]
      have hc : ¬ xs.length + 1 > max_history := by omega
      rw [if_neg (by simpa using hc)]
      have h1 : xs.length + 1 - max_history = 0 := by omega
      simp [h1]
    · push_neg at hlen
      have hdl : (xs.drop (xs.length - max_history)).length = max_history := by
        simp [List.length_drop]; omega
      have hc : (xs.drop (xs.length - max_history)).length + 1 > max_history := by
        omega
      rw [if_pos (by simpa using hc)]
      have htail : (xs.drop (xs.length - max_history) ++ [x]).tail
          = (xs.drop (xs.length - max_history)).tail ++ [x] := by
        cases hxs : xs.drop (xs.length - max_history) with
        | nil => rw [hxs] at hdl; simp at hdl; omega
        | cons y ys => simp
      rw [htail, List.tail_drop]
      have harith : xs.length + 1 - max_history
          = (xs.length - max_history + 1) := by omega
      rw [harith, List.drop_append_of_le_length (by omega)]

/-- C1: for positive parameters with g = 9.81, `derivs` returns exactly the
4-vector given by the spec's algebraic relations with delta = th2 - th1
(den1 = (M1+M2)L1 - M2 L1 cos^2 delta, den2 = (L2/L1) den1), and in
particular its first and third components are exactly the input angular
velocities w1 and w2. -/
theorem derivs_matches_spec_relations (p : DoublePendulum) (s : PendulumState)
    (t : ℝ) (hL1 : 0 < p.L1) (hL2 : 0 < p.L2) (hM1 : 0 < p.M1)
    (hM2 : 0 < p.M2) (hg : p.g = 9.81) :
    p.derivs s t =
      { th1 := s.w1
        w1 := (p.M2 * p.L1 * s.w1 ^ 2 * Real.sin (s.th2 - s.th1) * Real.cos (s.th2 - s.th1)
                + p.M2 * p.g * Real.sin s.th2 * Real.cos (s.th2 - s.th1)
                + p.M2 * p.L2 * s.w2 ^ 2 * Real.sin (s.th2 - s.th1)
                - (p.M1 + p.M2) * p.g * Real.sin s.th1) /
              ((p.M1 + p.M2) * p.L1 - p.M2 * p.L1 * Real.cos (s.th2 - s.th1) ^ 2)
        th2 := s.w2
        w2 := (- p.M2 * p.L2 * s.w2 ^ 2 * Real.sin (s.th2 - s.th1) * Real.cos (s.th2 - s.th1)
                + (p.M1 + p.M2) * p.g * Real.sin s.th1 * Real.cos (s.th2 - s.th1)
                - (p.M1 + p.M2) * p.L1 * s.w1 ^ 2 * Real.sin (s.th2 - s.th1)
                - (p.M1 + p.M2) * p.g * Real.sin s.th2) /
              ((p.L2 / p.L1) *
                ((p.M1 + p.M2) * p.L1 - p.M2 * p.L1 * Real.cos (s.th2 - s.th1) ^ 2)) } ∧
    (p.derivs s t).th1 = s.w1 ∧ (p.derivs s t).th2 = s.w2 := by
  refine ⟨?_, rfl, rfl⟩
  simp only [DoublePendulum.derivs, DoublePendulum.den1, DoublePendulum.den2]
  congr 1 <;> ring

theorem derivs_matches_spec_relations_witness :
    0 < sim.L1 ∧ 0 < sim.L2 ∧ 0 < sim.M1 ∧ 0 < sim.M2 ∧ sim.g = 9.81 ∧
    (sim.derivs sim.state 0 =
      { th1 := sim.state.w1
        w1 := (sim.M2 * sim.L1 * sim.state.w1 ^ 2 * Real.sin (sim.state.th2 - sim.state.th1) * Real.cos (sim.state.th2 - sim.state.th1)
                + sim.M2 * sim.g * Real.sin sim.state.th2 * Real.cos (sim.state.th2 - sim.state.th1)
                + sim.M2 * sim.L2 * sim.state.w2 ^ 2 * Real.sin (sim.state.th2 - sim.state.th1)
                - (sim.M1 + sim.M2) * sim.g * Real.sin sim.state.th1) /
              ((sim.M1 + sim.M2) * sim.L1 - sim.M2 * sim.L1 * Real.cos (sim.state.th2 - sim.state.th1) ^ 2)
        th2 := sim.state.w2
        w2 := (- sim.M2 * sim.L2 * sim.state.w2 ^ 2 * Real.sin (sim.state.th2 - sim.state.th1) * Real.cos (sim.state.th2 - sim.state.th1)
                + (sim.M1 + sim.M2) * sim.g * Real.sin sim.state.th1 * Real.cos (sim.state.th2 - sim.state.th1)
                - (sim.M1 + sim.M2) * sim.L1 * sim.state.w1 ^ 2 * Real.sin (sim.state.th2 - sim.state.th1)
                - (sim.M1 + sim.M2) * sim.g * Real.sin sim.state.th2) /
              ((sim.L2 / sim.L1) *
                ((sim.M1 + sim.M2) * sim.L1 - sim.M2 * sim.L1 * Real.cos (sim.state.th2 - sim.state.th1) ^ 2)) } ∧
      (sim.derivs sim.state 0).th1 = sim.state.w1 ∧
      (sim.derivs sim.state 0).th2 = sim.state.w2) := by
  refine ⟨by norm_num [sim, DoublePendulum.init], by norm_num [sim, DoublePendulum.init],
    by norm_num [sim, DoublePendulum.init], by norm_num [sim, DoublePendulum.init], rfl, ?_⟩
  exact derivs_matches_spec_relations sim sim.state 0
    (by norm_num [sim, DoublePendulum.init]) (by norm_num [sim, DoublePendulum.init])
    (by norm_num [sim, DoublePendulum.init]) (by norm_num [sim, DoublePendulum.init]) rfl

/-- C2: for every positive dt, `step(dt)` replaces the engine state
wholesale with the solver's state at t = dt (from the derivative function
and the current state as initial condition), returns exactly what
`get_pos` returns on the updated engine, and changes no other field
(L1, L2, M1, M2, g). -/
theorem step_replaces_state_returns_positions (solver : DoublePendulum.Solver)
    (p : DoublePendulum) (dt : ℝ) (hdt : 0 < dt) :
    (p.step solver dt).1.state = solver p.derivs p.state dt ∧
    (p.step solver dt).2 = (p.step solver dt).1.get_pos ∧
    (p.step solver dt).1.L1 = p.L1 ∧ (p.step solver dt).1.L2 = p.L2 ∧
    (p.step solver dt).1.M1 = p.M1 ∧ (p.step solver dt).1.M2 = p.M2 ∧
    (p.step solver dt).1.g = p.g :=
  ⟨rfl, rfl, rfl, rfl, rfl, rfl, rfl⟩

theorem step_replaces_state_returns_positions_witness :
    (0 : ℝ) < 1 ∧
    ((sim.step idSolver 1).1.state = idSolver sim.derivs sim.state 1 ∧
     (sim.step idSolver 1).2 = (sim.step idSolver 1).1.get_pos ∧
     (sim.step idSolver 1).1.L1 = sim.L1 ∧ (sim.step idSolver 1).1.L2 = sim.L2 ∧
     (sim.step idSolver 1).1.M1 = sim.M1 ∧ (sim.step idSolver 1).1.M2 = sim.M2 ∧
     (sim.step idSolver 1).1.g = sim.g) :=
  ⟨by norm_num, step_replaces_state_returns_positions idSolver sim 1 (by norm_num)⟩

/-- C3: `get_pos` is embedded as a pure function of the engine value (it
returns a tuple and touches no state), and for every state it returns
exactly x1 = L1 sin th1, y1 = -L1 cos th1, x2 = x1 + L2 sin th2,
y2 = y1 - L2 cos th2. -/
theorem get_pos_formula (p : DoublePendulum) :
    p.get_pos =
      (p.L1 * Real.sin p.state.th1,
       - p.L1 * Real.cos p.state.th1,
       p.L1 * Real.sin p.state.th1 + p.L2 * Real.sin p.state.th2,
       - p.L1 * Real.cos p.state.th1 - p.L2 * Real.cos p.state.th2) := rfl

/-- C4: a `perturb` call with draws r1, r2 in [-s, s] (s >= 0) changes w1
and w2 each by exactly one draw, hence by a value in [-s, s]; it leaves
th1, th2 and every parameter unchanged; and when s = 0 both velocities are
unchanged.  The bound holds for each call separately, so it holds per call
no matter how many calls are made. -/
theorem perturb_bounded_kick (p : DoublePendulum) (s r1 r2 : ℝ)
    (hs : 0 ≤ s) (h1 : r1 ∈ Set.Icc (-s) s) (h2 : r2 ∈ Set.Icc (-s) s) :
    (p.perturb r1 r2).state.w1 - p.state.w1 ∈ Set.Icc (-s) s ∧
    (p.perturb r1 r2).state.w2 - p.state.w2 ∈ Set.Icc (-s) s ∧
    (p.perturb r1 r2).state.th1 = p.state.th1 ∧
    (p.perturb r1 r2).state.th2 = p.state.th2 ∧
    (p.perturb r1 r2).L1 = p.L1 ∧ (p.perturb r1 r2).L2 = p.L2 ∧
    (p.perturb r1 r2).M1 = p.M1 ∧ (p.perturb r1 r2).M2 = p.M2 ∧
    (p.perturb r1 r2).g = p.g ∧
    (s = 0 → (p.perturb r1 r2).state.w1 = p.state.w1 ∧
             (p.perturb r1 r2).state.w2 = p.state.w2) := by
  obtain ⟨h1a, h1b⟩ := h1
  obtain ⟨h2a, h2b⟩ := h2
  refine ⟨?_, ?_, rfl, rfl, rfl, rfl, rfl, rfl, rfl, ?_⟩
  · simpa [DoublePendulum.perturb, Set.mem_Icc] using ⟨h1a, h1b⟩
  · simpa [DoublePendulum.perturb, Set.mem_Icc] using ⟨h2a, h2b⟩
  · intro h0
    subst h0
    have hr1 : r1 = 0 := le_antisymm h1b (by simpa using h1a)
    have hr2 : r2 = 0 := le_antisymm h2b (by simpa using h2a)
    simp [DoublePendulum.perturb, hr1, hr2]

theorem perturb_bounded_kick_witness :
    (0 : ℝ) ≤ 1 ∧ (1 / 2 : ℝ) ∈ Set.Icc (-(1 : ℝ)) 1 ∧
    (-(1 / 2) : ℝ) ∈ Set.Icc (-(1 : ℝ)) 1 ∧
    ((sim.perturb (1 / 2) (-(1 / 2))).state.w1 - sim.state.w1 ∈ Set.Icc (-(1 : ℝ)) 1 ∧
     (sim.perturb (1 / 2) (-(1 / 2))).state.w2 - sim.state.w2 ∈ Set.Icc (-(1 : ℝ)) 1 ∧
     (sim.perturb (1 / 2) (-(1 / 2))).state.th1 = sim.state.th1 ∧
     (sim.perturb (1 / 2) (-(1 / 2))).state.th2 = sim.state.th2 ∧
     (sim.perturb (1 / 2) (-(1 / 2))).L1 = sim.L1 ∧
     (sim.perturb (1 / 2) (-(1 / 2))).L2 = sim.L2 ∧
     (sim.perturb (1 / 2) (-(1 / 2))).M1 = sim.M1 ∧
     (sim.perturb (1 / 2) (-(1 / 2))).M2 = sim.M2 ∧
     (sim.perturb (1 / 2) (-(1 / 2))).g = sim.g ∧
     ((1 : ℝ) = 0 → (sim.perturb (1 / 2) (-(1 / 2))).state.w1 = sim.state.w1 ∧
                    (sim.perturb (1 / 2) (-(1 / 2))).state.w2 = sim.state.w2)) := by
  refine ⟨by norm_num, by constructor <;> norm_num, by constructor <;> norm_num, ?_⟩
  exact perturb_bounded_kick sim 1 (1 / 2) (-(1 / 2)) (by norm_num)
    (by constructor <;> norm_num) (by constructor <;> norm_num)

/-- C5: for every engine with nonnegative link lengths, the (x2, y2)
returned by `get_pos` lies in the closed disk of radius L1 + L2 about the
origin; in particular, after constructing the engine with the default
parameters and calling `step(0.04)` 100 consecutive times (whatever state
the adaptive solver returns at each call), the resulting end-effector
position satisfies x2^2 + y2^2 <= 2.0^2. -/
theorem end_effector_within_reach_disk (solver : DoublePendulum.Solver) :
    (∀ p : DoublePendulum, 0 ≤ p.L1 → 0 ≤ p.L2 →
        p.get_pos.2.2.1 ^ 2 + p.get_pos.2.2.2 ^ 2 ≤ (p.L1 + p.L2) ^ 2) ∧
    (DoublePendulum.stepN solver DoublePendulum.init 0.04 100).get_pos.2.2.1 ^ 2 +
      (DoublePendulum.stepN solver DoublePendulum.init 0.04 100).get_pos.2.2.2 ^ 2
      ≤ (2.0 : ℝ) ^ 2 := by
  refine ⟨fun p h1 h2 => DoublePendulum.get_pos_reach_bound p h1 h2, ?_⟩
  have hL1 : (DoublePendulum.stepN solver DoublePendulum.init 0.04 100).L1 = 1.0 :=
    DoublePendulum.stepN_L1 solver DoublePendulum.init 0.04 100
  have hL2 : (DoublePendulum.stepN solver DoublePendulum.init 0.04 100).L2 = 1.0 :=
    DoublePendulum.stepN_L2 solver DoublePendulum.init 0.04 100
  have h := DoublePendulum.get_pos_reach_bound
    (DoublePendulum.stepN solver DoublePendulum.init 0.04 100)
    (by rw [hL1]; norm_num) (by rw [hL2]; norm_num)
  rw [hL1, hL2] at h
  calc (DoublePendulum.stepN solver DoublePendulum.init 0.04 100).get_pos.2.2.1 ^ 2 +
        (DoublePendulum.stepN solver DoublePendulum.init 0.04 100).get_pos.2.2.2 ^ 2
      ≤ ((1.0 : ℝ) + 1.0) ^ 2 := h
    _ = (2.0 : ℝ) ^ 2 := by norm_num

theorem end_effector_within_reach_disk_witness :
    0 ≤ sim.L1 ∧ 0 ≤ sim.L2 ∧
    (sim.get_pos.2.2.1 ^ 2 + sim.get_pos.2.2.2 ^ 2 ≤ (sim.L1 + sim.L2) ^ 2) ∧
    (DoublePendulum.stepN idSolver DoublePendulum.init 0.04 100).get_pos.2.2.1 ^ 2 +
      (DoublePendulum.stepN idSolver DoublePendulum.init 0.04 100).get_pos.2.2.2 ^ 2
      ≤ (2.0 : ℝ) ^ 2 := by
  have h1 : 0 ≤ sim.L1 := by norm_num [sim, DoublePendulum.init]
  have h2 : 0 ≤ sim.L2 := by norm_num [sim, DoublePendulum.init]
  exact ⟨h1, h2, (end_effector_within_reach_disk idSolver).1 sim h1 h2,
    (end_effector_within_reach_disk idSolver).2⟩

/-- C6: construction stores the parameters it is given (defaults
L1 = L2 = M1 = M2 = 1.0 when none are passed), fixes g at 9.81, and always
sets the state to exactly (pi/1.1, 0, pi/1.1, 0) regardless of the
parameters passed. -/
theorem construction_defaults_and_fixed_initial_state :
    (∀ L1 L2 M1 M2 : ℝ,
      (DoublePendulum.init L1 L2 M1 M2).state
          = ⟨Real.pi / 1.1, 0, Real.pi / 1.1, 0⟩ ∧
      (DoublePendulum.init L1 L2 M1 M2).g = 9.81 ∧
      (DoublePendulum.init L1 L2 M1 M2).L1 = L1 ∧
      (DoublePendulum.init L1 L2 M1 M2).L2 = L2 ∧
      (DoublePendulum.init L1 L2 M1 M2).M1 = M1 ∧
      (DoublePendulum.init L1 L2 M1 M2).M2 = M2) ∧
    (DoublePendulum.init : DoublePendulum) = DoublePendulum.init 1.0 1.0 1.0 1.0 :=
  ⟨fun _ _ _ _ => ⟨rfl, rfl, rfl, rfl, rfl, rfl⟩, rfl⟩

/-- C7: the trail history is a bounded FIFO of capacity `max_history = 200`:
appending any sequence of more than 200 points to an empty history leaves
exactly 200 points, namely the most recently appended ones in order (the
oldest is discarded first each time the capacity is exceeded). -/
theorem trail_fifo_capacity {α : Type} (ps : List α)
    (h : ps.length > max_history) :
    (trailOf ps).length = max_history ∧
    trailOf ps = ps.drop (ps.length - max_history) := by
  have hm : max_history = 200 := rfl
  refine ⟨?_, trailOf_eq_drop ps⟩
  rw [trailOf_eq_drop ps, List.length_drop]
  omega

set_option maxRecDepth 4000 in
theorem trail_fifo_capacity_witness :
    (List.range 201).length > max_history ∧
    ((trailOf (List.range 201)).length = max_history ∧
      trailOf (List.range 201) = (List.range 201).drop 1) := by
  have h : (List.range 201).length > max_history := by
    simp [List.length_range, max_history]
  refine ⟨h, (trail_fifo_capacity (List.range 201) h).1, ?_⟩
  have h2 := (trail_fifo_capacity (List.range 201) h).2
  simpa [List.length_range, max_history] using h2

/-- C8: `get_pos` on a state with th1 = th2 = 0 (velocities and parameters
arbitrary) yields exactly (0, -L1, 0, -(L1+L2)); and with L1 = L2 = 1 on a
state with th1 = th2 = pi/2 it yields x1, y1, x2, y2 within 1e-9 of
1, 0, 2, 0 (in this real-number semantics, exactly). -/
theorem get_pos_reference_configurations :
    (∀ L1 L2 M1 M2 gv w1 w2 : ℝ,
      DoublePendulum.get_pos ⟨L1, L2, M1, M2, gv, ⟨0, w1, 0, w2⟩⟩
        = (0, -L1, 0, -(L1 + L2))) ∧
    (∀ M1 M2 gv w1 w2 : ℝ,
      |(DoublePendulum.get_pos ⟨1, 1, M1, M2, gv, ⟨Real.pi / 2, w1, Real.pi / 2, w2⟩⟩).1 - 1|
          ≤ 1e-9 ∧
      |(DoublePendulum.get_pos ⟨1, 1, M1, M2, gv, ⟨Real.pi / 2, w1, Real.pi / 2, w2⟩⟩).2.1 - 0|
          ≤ 1e-9 ∧
      |(DoublePendulum.get_pos ⟨1, 1, M1, M2, gv, ⟨Real.pi / 2, w1, Real.pi / 2, w2⟩⟩).2.2.1 - 2|
          ≤ 1e-9 ∧
      |(DoublePendulum.get_pos ⟨1, 1, M1, M2, gv, ⟨Real.pi / 2, w1, Real.pi / 2, w2⟩⟩).2.2.2 - 0|
          ≤ 1e-9) := by
  constructor
  · intro L1 L2 M1 M2 gv w1 w2
    simp [DoublePendulum.get_pos]
    ring
  · intro M1 M2 gv w1 w2
    simp [DoublePendulum.get_pos]
    norm_num

/-- C10: for strictly positive parameters, den1 equals
L1 (M1 + M2 sin^2 delta) for delta = th2 - th1, so den1 >= L1 M1 > 0 and
den2 = (L2/L1) den1 > 0; hence neither division in `derivs` is a division
by zero. -/
theorem den1_den2_positive (p : DoublePendulum) (s : PendulumState)
    (hL1 : 0 < p.L1) (hL2 : 0 < p.L2) (hM1 : 0 < p.M1) (hM2 : 0 < p.M2) :
    p.den1 (s.th2 - s.th1)
        = p.L1 * (p.M1 + p.M2 * Real.sin (s.th2 - s.th1) ^ 2) ∧
    p.L1 * p.M1 ≤ p.den1 (s.th2 - s.th1) ∧
    0 < p.den1 (s.th2 - s.th1) ∧ 0 < p.den2 (s.th2 - s.th1) ∧
    p.den1 (s.th2 - s.th1) ≠ 0 ∧ p.den2 (s.th2 - s.th1) ≠ 0 := by
  set d := s.th2 - s.th1 with hd
  have heq : p.den1 d = p.L1 * (p.M1 + p.M2 * Real.sin d ^ 2) := by
    rw [DoublePendulum.den1]
    linear_combination (-(p.L1 * p.M2)) * Real.sin_sq_add_cos_sq d
  have hlb : p.L1 * p.M1 ≤ p.den1 d := by
    rw [heq]
    nlinarith [mul_nonneg (mul_nonneg hL1.le hM2.le) (sq_nonneg (Real.sin d))]
  have h1 : 0 < p.den1 d := lt_of_lt_of_le (mul_pos hL1 hM1) hlb
  have h2 : 0 < p.den2 d := by
    rw [DoublePendulum.den2]
    exact mul_pos (div_pos hL2 hL1) h1
  exact ⟨heq, hlb, h1, h2, ne_of_gt h1, ne_of_gt h2⟩

theorem den1_den2_positive_witness :
    0 < sim.L1 ∧ 0 < sim.L2 ∧ 0 < sim.M1 ∧ 0 < sim.M2 ∧
    (sim.den1 (sim.state.th2 - sim.state.th1)
        = sim.L1 * (sim.M1 + sim.M2 * Real.sin (sim.state.th2 - sim.state.th1) ^ 2) ∧
     sim.L1 * sim.M1 ≤ sim.den1 (sim.state.th2 - sim.state.th1) ∧
     0 < sim.den1 (sim.state.th2 - sim.state.th1) ∧
     0 < sim.den2 (sim.state.th2 - sim.state.th1) ∧
     sim.den1 (sim.state.th2 - sim.state.th1) ≠ 0 ∧
     sim.den2 (sim.state.th2 - sim.state.th1) ≠ 0) := by
  refine ⟨by norm_num [sim, DoublePendulum.init], by norm_num [sim, DoublePendulum.init],
    by norm_num [sim, DoublePendulum.init], by norm_num [sim, DoublePendulum.init], ?_⟩
  exact den1_den2_positive sim sim.state
    (by norm_num [sim, DoublePendulum.init]) (by norm_num [sim, DoublePendulum.init])
    (by norm_num [sim, DoublePendulum.init]) (by norm_num [sim, DoublePendulum.init])
